import Mathlib

/-!
Verification of the small-council deliberation pipeline.

The definitions below are a shallow embedding of the repository's code:
`openrouter` embeds `src/small_council/openrouter.py`, `files` embeds
`src/small_council/files.py`, and `council` models the deliberation
orchestrator.  Machine-level effects (HTTP, the event loop, the file
system) are represented by explicit inputs: the behaviour of one HTTP
call is a value of an outcome type, the completion order of concurrent
tasks is an explicit schedule, and the file system is a record of
functions.
-/

namespace SmallCouncil

/-! ### String helpers

Python's `str.lower`, `str.startswith` and the `in` substring test, as
used by `model_requires_xhigh_reasoning`. -/

/-- Does the character list `l` start with `p`? (Python `startswith` on
the underlying characters.) -/
def listStartsWith : List Char → List Char → Bool
  | _, [] => true
  | [], _ :: _ => false
  | a :: as, b :: bs => a == b && listStartsWith as bs

/-- Does `p` occur as a contiguous run inside `l`?  (Python `p in l`.) -/
def listContainsSub : List Char → List Char → Bool
  | [], p => p.isEmpty
  | a :: as, p => listStartsWith (a :: as) p || listContainsSub as p

/-- Python `pat in s` for strings. -/
def strContainsSub (s pat : String) : Bool :=
  listContainsSub s.toList pat.toList

/-! ### openrouter.py: request payload construction -/

/-- One chat message, a dict with keys `role` and `content`. -/
structure ChatMessage where
  role : String
  content : String
deriving DecidableEq

/-- The value stored under the payload's `reasoning` key. -/
structure ReasoningCfg where
  effort : String
deriving DecidableEq

/-- The OpenRouter chat-completion payload built by
`build_request_payload`; `reasoning = none` means the key is absent. -/
structure RequestPayload where
  model : String
  messages : List ChatMessage
  max_tokens : Nat
  reasoning : Option ReasoningCfg
deriving DecidableEq

/-- Embeds `model_requires_xhigh_reasoning` from `openrouter.py`:
true for lowercased models starting with "openai/" and containing
"codex", and for those starting with "anthropic/claude-opus-". -/
def model_requires_xhigh_reasoning (model : String) : Bool :=
  let lower_model := model.toLower
  let is_openai_codex :=
    lower_model.startsWith "openai/" && strContainsSub lower_model "codex"
  let is_anthropic_opus := lower_model.startsWith "anthropic/claude-opus-"
  is_openai_codex || is_anthropic_opus

/-- Embeds `build_request_payload` from `openrouter.py`. -/
def build_request_payload (model : String) (messages : List ChatMessage)
    (max_tokens : Nat) : RequestPayload :=
  let payload : RequestPayload :=
    { model := model, messages := messages, max_tokens := max_tokens,
      reasoning := none }
  if model_requires_xhigh_reasoning model then
    { payload with reasoning := some { effort := "xhigh" } }
  else
    payload

/-- The condition of claim C8, written from the claim's own words: the
lowercased model either starts with "openai/" and contains "codex", or
starts with "anthropic/claude-opus-". -/
def spec_requires_xhigh (model : String) : Bool :=
  (model.toLower.startsWith "openai/" && strContainsSub model.toLower "codex")
    || model.toLower.startsWith "anthropic/claude-opus-"

/-! ### openrouter.py: query_model

One HTTP call either raises (timeout, transport error, ...) or yields a
response with a status code and a body.  The body is modelled at the
granularity `query_model` inspects it: `message = some m` when
`data["choices"][0]["message"]` exists, `none` when the payload is
malformed and indexing raises. -/

/-- The message object of a well-formed response body; `content` is
`none` when the key is absent or JSON null. -/
structure BackendMessage where
  content : Option String
  reasoning_details : Option String
deriving DecidableEq

/-- An HTTP response as seen by `do_request`. -/
structure HttpResponse where
  status : Nat
  message : Option BackendMessage
deriving DecidableEq

/-- A Python exception escaping a step of `do_request`. -/
inductive PyError where
  | httpStatus (status : Nat)
  | timedOut
  | other (name : String)
deriving DecidableEq

/-- What `client.post` does on this call: return a response, or raise. -/
inductive PostBehaviour where
  | ok (resp : HttpResponse)
  | raises (e : PyError)
deriving DecidableEq

/-- Embeds `response.raise_for_status()`: httpx raises `HTTPStatusError`
for any 4xx/5xx status. -/
def raise_for_status (status : Nat) : Except PyError Unit :=
  if 400 ≤ status then Except.error (PyError.httpStatus status) else Except.ok ()

/-- Embeds `data["choices"][0]["message"]`: a malformed payload makes the
indexing raise. -/
def extract_message (resp : HttpResponse) : Except PyError BackendMessage :=
  match resp.message with
  | some m => Except.ok m
  | none => Except.error (PyError.other "KeyError")

/-- Python `v or ""` for an optional string: `None` and `""` are falsy. -/
def py_or_empty (v : Option String) : String :=
  match v with
  | none => ""
  | some s => if s.isEmpty then "" else s

/-- The dict returned by a successful `query_model` call. -/
structure QueryResult where
  content : String
  reasoning_details : Option String
deriving DecidableEq

/-- Embeds the inner `do_request` of `query_model`: post, raise for
status, extract the message, and build the result dict.  Any raised
exception propagates as `Except.error`. -/
def do_request (b : PostBehaviour) : Except PyError QueryResult :=
  match b with
  | PostBehaviour.raises e => Except.error e
  | PostBehaviour.ok resp =>
    match raise_for_status resp.status with
    | Except.error e => Except.error e
    | Except.ok _ =>
      match extract_message resp with
      | Except.error e => Except.error e
      | Except.ok m =>
        Except.ok { content := py_or_empty m.content,
                    reasoning_details := m.reasoning_details }

/-- Embeds `query_model` from `openrouter.py`: the surrounding
`try/except` catches `HTTPStatusError`, `TimeoutException` and every
other `Exception` and returns `None`. -/
def query_model (b : PostBehaviour) : Option QueryResult :=
  match do_request b with
  | Except.ok r => some r
  | Except.error _ => none

/-! ### openrouter.py: query_models_parallel

`asyncio.gather` runs one task per model and returns the task results
in task order, whatever order the tasks complete in.  A completion
schedule is a list of task indices; each completion writes the task's
result into its own pre-sized slot, and a schedule that is a
permutation of the indices fills every slot. -/

/-- Run a completion schedule: each scheduled index `i` writes the
result of task `i` into slot `i`. -/
def runSched (f : Nat → α) : List Nat → List (Option α) → List (Option α)
  | [], slots => slots
  | i :: rest, slots => runSched f rest (slots.set i (some (f i)))

/-- Embeds `asyncio.gather`: start with one empty slot per task, run the
completion schedule, and read the slots back in task order. -/
def asyncio_gather (dflt : α) (tasks : List α) (sched : List Nat) :
    List (Option α) :=
  runSched (fun i => tasks.getD i dflt) sched
    (List.replicate tasks.length none)

/-- Python dict assignment `d[k] = v`: an existing key keeps its
position and takes the new value, a new key is appended. -/
def pyDictInsert (d : List (String × α)) (k : String) (v : α) :
    List (String × α) :=
  if d.any (fun kv => kv.1 == k) then
    d.map (fun kv => if kv.1 == k then (kv.1, v) else kv)
  else
    d ++ [(k, v)]

/-- The dict comprehension over a list of key-value pairs, in Python
insertion order. -/
def pyDictOfList (l : List (String × α)) : List (String × α) :=
  l.foldl (fun d kv => pyDictInsert d kv.1 kv.2) []

/-- Embeds `query_models_parallel` from `openrouter.py`: one
`query_model` task per model sharing one client, `asyncio.gather` over
a completion schedule, then
`{model: response for model, response in zip(models, responses)}`.
The per-model gateway outcome is abstracted as `gw`. -/
def query_models_parallel (models : List String)
    (gw : String → Option QueryResult) (sched : List Nat) :
    List (String × Option QueryResult) :=
  let responses :=
    (asyncio_gather none (models.map gw) sched).filterMap id
  pyDictOfList (models.zip responses)

/-! ### files.py: load_files

The file system is a record of pure functions: `resolve` canonicalises
a path, `info` returns the stat size and the readable contents of a
path, with `info p = none` when `stat` raises and `content = none` when
`read` raises.  The input path list stands for `all_paths` (explicit
paths already filtered plus expanded globs). -/

/-- What `load_files` observes about one path. -/
structure FileInfo where
  size : Nat
  content : Option String
deriving DecidableEq

/-- The file system as seen by `load_files`. -/
structure FileSys where
  resolve : String → String
  info : String → Option FileInfo

/-- Embeds the dedup loop of `load_files`: drop a path whose resolved
form was already seen, keeping first occurrences in order. -/
def dedupResolved (fs : FileSys) : List String → List String → List String
  | [], _ => []
  | p :: rest, seen =>
    if seen.contains (fs.resolve p) then dedupResolved fs rest seen
    else p :: dedupResolved fs rest (fs.resolve p :: seen)

/-- Embeds the size-limited inclusion loop of `load_files`: skip a path
whose stat raises, whose size exceeds the per-file limit, whose size
would push the running total over the total limit, or whose read
raises; otherwise include it and add its size to the total.  Each
included path is returned with its contents and stat size. -/
def collectFiles (fs : FileSys) (maxFile maxTotal : Nat) :
    List String → Nat → List (String × String × Nat)
  | [], _ => []
  | p :: rest, total =>
    match fs.info p with
    | none => collectFiles fs maxFile maxTotal rest total
    | some fi =>
      if maxFile < fi.size then collectFiles fs maxFile maxTotal rest total
      else if maxTotal < total + fi.size then
        collectFiles fs maxFile maxTotal rest total
      else
        match fi.content with
        | none => collectFiles fs maxFile maxTotal rest total
        | some c =>
          (p, c, fi.size) :: collectFiles fs maxFile maxTotal rest (total + fi.size)

/-- The list of files `load_files` includes, in order. -/
def includedFiles (fs : FileSys) (maxFile maxTotal : Nat)
    (paths : List String) : List (String × String × Nat) :=
  collectFiles fs maxFile maxTotal (dedupResolved fs paths []) 0

/-- Embeds `format_file_xml` from `files.py`. -/
def format_file_xml (path content : String) : String :=
  "<file path=\"" ++ path ++ "\">\n" ++ content ++ "\n</file>"

/-- Embeds `load_files` from `files.py`: dedup by resolved path, then
the size-limited loop, then join the formatted blocks. -/
def load_files (fs : FileSys) (maxFile maxTotal : Nat)
    (paths : List String) : String :=
  String.intercalate "\n\n"
    ((includedFiles fs maxFile maxTotal paths).map
      (fun t => format_file_xml t.1 t.2.1))

/-- A path `load_files` skips while continuing with the rest: its stat
raises, it is oversize, or its read raises. -/
def skipsFile (fs : FileSys) (maxFile : Nat) (p : String) : Prop :=
  fs.info p = none ∨
    ∃ fi, fs.info p = some fi ∧ (maxFile < fi.size ∨ fi.content = none)

/-- A two-file file system used to witness the skip behaviour: "big" is
over any small per-file limit, "ok" is small and readable. -/
def fsEx : FileSys :=
  { resolve := fun p => p,
    info := fun p =>
      if p = "big" then some (FileInfo.mk 1000 (some "B"))
      else if p = "ok" then some (FileInfo.mk 10 (some "K"))
      else none }


/-! ### The deliberation orchestrator

Modelled from the spec: the repository's council module (the
`run_full_council` orchestrator imported by `cli.py`, with its
anonymizer and ranking aggregation) is not among the source files, so
the definitions of this section follow the spec's component design:
Stage 1 fans the query out and keeps one outcome per council model in
input order; zero successes abort with `NoResponses` before Stage 2;
the anonymizer assigns sequential labels to a seeded permutation of the
successful models; Stage 2 collects per-reviewer ranking submissions
and aggregates average ranks; Stage 3 issues one chairman call whose
failure aborts with `SynthesisFailed` while earlier data stays
available. -/

/-- Modelled from the spec: one Stage-1 outcome per requested council
model; `response = none` means the call failed. -/
structure StageOneOutcome where
  model : String
  response : Option String
deriving DecidableEq

/-- Modelled from the spec: a Label is an opaque per-run token; here
the 1-based number behind the display form "Response N". -/
abbrev Label := Nat

/-- Modelled from the spec: the models with a successful Stage-1
outcome, in outcome order. -/
def successfulModels (outcomes : List StageOneOutcome) : List String :=
  (outcomes.filter (fun o => o.response.isSome)).map (fun o => o.model)

/-- Modelled from the spec: the anonymizer assigns sequential labels
1..N to an already permuted list of successful models. -/
def anonymize (shuffled : List String) : List (Label × String) :=
  shuffled.enum.map (fun im => (im.1 + 1, im.2))

/-- Modelled from the spec: the label a LabelAssignment gives a model. -/
def labelOfModel (assignment : List (Label × String)) (m : String) :
    Option Label :=
  (assignment.find? (fun lm => lm.2 == m)).map (fun lm => lm.1)

/-- Modelled from the spec: a model's 1-indexed rank positions across
the valid submissions naming its label. -/
def rankPositions (lbl : Label) (subs : List (List Label)) : List Nat :=
  subs.filterMap (fun sub => (sub.indexOf? lbl).map (fun i => i + 1))

/-- Modelled from the spec: the arithmetic mean of a list of rank
positions. -/
def averageRank (positions : List Nat) : ℚ :=
  (positions.sum : ℚ) / (positions.length : ℚ)

/-- Modelled from the spec: one AggregateRanking entry; `pos` records
the model's original council-order position, used only to break average
ties deterministically. -/
structure AggregateEntry where
  model : String
  average_rank : ℚ
  pos : Nat
deriving DecidableEq

/-- Modelled from the spec: the unsorted aggregate entries, one per
labelled model named in at least one valid submission, in council
order. -/
def aggregateEntries (cands : List (String × Label))
    (subs : List (List Label)) : List AggregateEntry :=
  cands.enum.filterMap (fun ic =>
    let ps := rankPositions ic.2.2 subs
    if ps.isEmpty then none
    else some (AggregateEntry.mk ic.2.1 (averageRank ps) ic.1))

/-- Modelled from the spec: the presentation order of two aggregate
entries: strictly better average first, equal averages in council
order. -/
def entryBefore (a b : AggregateEntry) : Prop :=
  a.average_rank < b.average_rank ∨
    (a.average_rank = b.average_rank ∧ a.pos < b.pos)

/-- Modelled from the spec: insert an entry after every earlier entry
with an average at most its own, keeping the sort stable. -/
def insertEntry (e : AggregateEntry) : List AggregateEntry →
    List AggregateEntry
  | [] => [e]
  | x :: xs =>
    if e.average_rank < x.average_rank then e :: x :: xs
    else x :: insertEntry e xs

/-- Modelled from the spec: stable sort of the aggregate entries by
ascending average rank. -/
def sortEntries (l : List AggregateEntry) : List AggregateEntry :=
  l.foldl (fun acc e => insertEntry e acc) []

/-- Modelled from the spec: AggregateRanking, sorted ascending by
average rank with ties broken by council order. -/
def aggregateRankings (cands : List (String × Label))
    (subs : List (List Label)) : List AggregateEntry :=
  sortEntries (aggregateEntries cands subs)

/-- Modelled from the spec: the two fatal conditions of a run. -/
inductive FatalError where
  | noResponses
  | synthesisFailed
deriving DecidableEq

/-- Modelled from the spec: Stage-2 data kept in the result bundle:
per-reviewer submissions (parsed ranking or failure marker) and the
aggregate ranking. -/
structure Stage2Data where
  submissions : List (String × Option (List Label))
  aggregate : List AggregateEntry
deriving DecidableEq

/-- Modelled from the spec: the single Stage-3 result. -/
structure ChairmanOutcome where
  model : String
  response : String
deriving DecidableEq

/-- Modelled from the spec: the full output bundle, with the fatal
condition when a run aborts, plus the calls each later stage
dispatched. -/
structure DeliberationResult where
  stage1 : List StageOneOutcome
  labels : List (Label × String)
  stage2 : Option Stage2Data
  chairman : Option ChairmanOutcome
  fatal : Option FatalError
  stage2Calls : List String
  stage3Calls : Nat

/-- Modelled from the spec: the external world of one run.  Stage-1 and
Stage-2 per-model call outcomes are oracles (Stage-2 outcomes already
carry the parse result: a valid label ranking or a failure marker), the
chairman call outcome is a single optional response, and `shuffle` is
the seeded permutation used by the anonymizer. -/
structure Env where
  stage1Response : String → Option String
  reviewRanking : String → Option (List Label)
  chairmanResponse : Option String
  shuffle : List String → List String

/-- Modelled from the spec: the orchestrator.  Strictly sequential
stages: Stage 1 fans out and joins, zero successes abort with
`NoResponses` before any Stage-2 dispatch, otherwise the anonymizer
labels a permutation of the successful models, Stage 2 queries exactly
the successful models and aggregates the valid submissions, and the
single chairman call either completes the run or aborts it with
`SynthesisFailed`. -/
def runDeliberation (env : Env) (council : List String) (chairman : String) :
    DeliberationResult :=
  let stage1 := council.map (fun m => StageOneOutcome.mk m (env.stage1Response m))
  let succ := successfulModels stage1
  if succ.isEmpty then
    DeliberationResult.mk stage1 [] none none (some FatalError.noResponses) [] 0
  else
    let assignment := anonymize (env.shuffle succ)
    let reviewers := succ
    let submissions := reviewers.map (fun r => (r, env.reviewRanking r))
    let validSubs := submissions.filterMap (fun s => s.2)
    let cands := succ.filterMap
      (fun m => (labelOfModel assignment m).map (fun l => (m, l)))
    let agg := aggregateRankings cands validSubs
    match env.chairmanResponse with
    | none =>
      DeliberationResult.mk stage1 assignment
        (some (Stage2Data.mk submissions agg)) none
        (some FatalError.synthesisFailed) reviewers 1
    | some resp =>
      DeliberationResult.mk stage1 assignment
        (some (Stage2Data.mk submissions agg)) (some (ChairmanOutcome.mk chairman resp))
        none reviewers 1

/-- A run in which every Stage-1 call fails. -/
def envAllFail : Env :=
  { stage1Response := fun _ => none,
    reviewRanking := fun _ => none,
    chairmanResponse := none,
    shuffle := fun l => l }

/-- A run with successful Stage-1 calls whose chairman call fails; the
anonymizer permutation reverses the successful models. -/
def envNoChairman : Env :=
  { stage1Response := fun m => if m = "b" then none else some "r",
    reviewRanking := fun _ => some [1],
    chairmanResponse := none,
    shuffle := fun l => l.reverse }

/-! Lemmas about the join barrier. -/

/-- `runSched` never changes the number of slots. -/
theorem runSched_length (f : Nat → α) (sched : List Nat)
    (slots : List (Option α)) :
    (runSched f sched slots).length = slots.length := by
  induction sched generalizing slots with
  | nil => rfl
  | cons i rest ih => simpa [runSched] using ih (slots.set i (some (f i)))

/-- After running a schedule, slot `j` holds `f j` if `j` was scheduled,
and its initial value otherwise. -/
theorem runSched_get (f : Nat → α) (sched : List Nat)
    (slots : List (Option α)) (j : Nat) (hj : j < slots.length) :
    (runSched f sched slots)[j]? =
      if j ∈ sched then some (some (f j)) else slots[j]? := by
  induction sched generalizing slots with
  | nil => simp [runSched]
  | cons i rest ih =>
    have hj' : j < (slots.set i (some (f i))).length := by
      simpa using hj
    rw [runSched, ih (slots.set i (some (f i))) hj']
    by_cases hmem : j ∈ rest
    · simp [hmem, List.mem_cons]
    · by_cases hij : j = i
      · subst hij
        simp [hmem, List.getElem?_set, hj]
      · have hnotin : j ∉ (i :: rest) := by
          intro hmem2
          rcases List.mem_cons.mp hmem2 with h | h
          · exact hij h
          · exact hmem h
        have hne : ¬ (i = j) := fun h => hij h.symm
        rw [if_neg hmem, if_neg hnotin, List.getElem?_set, if_neg hne]

/-- A schedule that is a permutation of the task indices fills every
slot with its own task's result: the join barrier restores task order
regardless of completion order. -/
theorem asyncio_gather_eq (dflt : α) (tasks : List α) (sched : List Nat)
    (hp : sched.Perm (List.range tasks.length)) :
    asyncio_gather dflt tasks sched = tasks.map some := by
  apply List.ext_getElem?
  intro j
  by_cases hj : j < tasks.length
  · have hmem : j ∈ sched := hp.mem_iff.mpr (List.mem_range.mpr hj)
    have hlen : j < (List.replicate tasks.length (none : Option α)).length := by
      simpa using hj
    rw [asyncio_gather, runSched_get _ _ _ _ hlen, if_pos hmem,
      List.getElem?_map, List.getElem?_eq_getElem hj]
    simp [List.getD, List.getElem?_eq_getElem hj]
  · have h1 : (asyncio_gather dflt tasks sched).length ≤ j := by
      unfold asyncio_gather
      rw [runSched_length]
      simpa using Nat.le_of_not_lt hj
    have h2 : (tasks.map some).length ≤ j := by
      simpa using Nat.le_of_not_lt hj
    rw [List.getElem?_eq_none h1, List.getElem?_eq_none h2]

/-- Collapsing the slots of a fully settled gather recovers the task
results in task order. -/
theorem filterMap_id_map_some (l : List α) :
    (l.map some).filterMap id = l := by
  induction l with
  | nil => rfl
  | cons a l ih => simp [ih]

/-- Zipping a list with its own image. -/
theorem zip_self_map (l : List α) (g : α → β) :
    l.zip (l.map g) = l.map (fun a => (a, g a)) := by
  induction l with
  | nil => rfl
  | cons a l ih => simp [ih]

/-- On a pair list with distinct keys, the Python dict comprehension is
the identity. -/
theorem pyDictOfList_nodup (l : List (String × α))
    (h : (l.map Prod.fst).Nodup) : pyDictOfList l = l := by
  suffices hgen : ∀ (l d : List (String × α)),
      (d.map Prod.fst ++ l.map Prod.fst).Nodup →
      l.foldl (fun d kv => pyDictInsert d kv.1 kv.2) d = d ++ l by
    simpa using hgen l [] (by simpa using h)
  intro l
  induction l with
  | nil => intro d _; simp
  | cons kv l ih =>
    intro d hd
    have hknot : ∀ q ∈ d, ¬ q.1 == kv.1 := by
      intro q hq
      have h1 : q.1 ∈ d.map Prod.fst := List.mem_map_of_mem Prod.fst hq
      have h2 : kv.1 ∈ (kv :: l).map Prod.fst := by simp
      have hdisj := List.disjoint_of_nodup_append hd
      simp only [beq_iff_eq]
      intro hqe
      exact hdisj h1 (hqe ▸ h2)
    have hins : pyDictInsert d kv.1 kv.2 = d ++ [kv] := by
      unfold pyDictInsert
      have : d.any (fun q => q.1 == kv.1) = false := by
        simp only [List.any_eq_false]
        exact hknot
      simp [this]
    have hd' : ((d ++ [kv]).map Prod.fst ++ l.map Prod.fst).Nodup := by
      simpa [List.append_assoc] using hd
    calc (kv :: l).foldl (fun d q => pyDictInsert d q.1 q.2) d
        = l.foldl (fun d q => pyDictInsert d q.1 q.2) (pyDictInsert d kv.1 kv.2)
          := rfl
      _ = l.foldl (fun d q => pyDictInsert d q.1 q.2) (d ++ [kv]) := by
          rw [hins]
      _ = (d ++ [kv]) ++ l := ih (d ++ [kv]) hd'
      _ = d ++ kv :: l := by simp

/-- Claim C1: for every non-empty council list of distinct models and
any per-model gateway outcomes, `query_models_parallel` returns exactly
one outcome per requested model, keyed in input order, whatever the
completion order of the concurrent calls. -/
theorem query_models_parallel_ordered (models : List String)
    (gw : String → Option QueryResult) (sched : List Nat)
    (hne : models ≠ []) (hnd : models.Nodup)
    (hs : sched.Perm (List.range models.length)) :
    (query_models_parallel models gw sched).map Prod.fst = models ∧
    ∀ p ∈ query_models_parallel models gw sched, p.2 = gw p.1 := by
  have h1 : asyncio_gather none (models.map gw) sched
      = (models.map gw).map some := by
    apply asyncio_gather_eq
    simpa using hs
  have hfst : ∀ (l : List String),
      (l.map (fun m => (m, gw m))).map Prod.fst = l := by
    intro l
    induction l with
    | nil => rfl
    | cons a l ih => simp [ih]
  have h2 : query_models_parallel models gw sched
      = models.map (fun m => (m, gw m)) := by
    unfold query_models_parallel
    simp only [h1, filterMap_id_map_some, zip_self_map]
    apply pyDictOfList_nodup
    rw [hfst]
    exact hnd
  refine ⟨?_, ?_⟩
  · rw [h2]
    exact hfst models
  · rw [h2]
    intro p hp
    rcases List.mem_map.mp hp with ⟨m, _, rfl⟩
    rfl

/-- Witness for C1: two models, a schedule in which the second call
completes first, and a gateway where one call fails. -/
theorem query_models_parallel_ordered_witness :
    (query_models_parallel ["a", "b"]
        (fun m => if m = "a" then some (QueryResult.mk "ra" none) else none)
        [1, 0]).map Prod.fst = ["a", "b"] ∧
    ∀ p ∈ query_models_parallel ["a", "b"]
        (fun m => if m = "a" then some (QueryResult.mk "ra" none) else none)
        [1, 0],
      p.2 = (fun m => if m = "a" then some (QueryResult.mk "ra" none)
                      else none) p.1 :=
  query_models_parallel_ordered ["a", "b"]
    (fun m => if m = "a" then some (QueryResult.mk "ra" none) else none)
    [1, 0] (by decide) (by decide) (by decide)

/-- The paths kept by `collectFiles` are a subsequence of its input. -/
theorem collectFiles_sublist (fs : FileSys) (maxFile maxTotal : Nat)
    (l : List String) (total : Nat) :
    ((collectFiles fs maxFile maxTotal l total).map
      (fun t => t.1)).Sublist l := by
  induction l generalizing total with
  | nil => simp [collectFiles]
  | cons p rest ih =>
    rw [collectFiles]
    match hinfo : fs.info p with
    | none => exact (ih total).cons p
    | some fi =>
      by_cases h1 : maxFile < fi.size
      · simp only [if_pos h1]
        exact (ih total).cons p
      · simp only [if_neg h1]
        by_cases h2 : maxTotal < total + fi.size
        · simp only [if_pos h2]
          exact (ih total).cons p
        · simp only [if_neg h2]
          match hc : fi.content with
          | none => exact (ih total).cons p
          | some c =>
            simpa using (ih (total + fi.size)).cons₂ p

/-- Every file included by `collectFiles` was stat-ed, read, and fits
the per-file limit. -/
theorem collectFiles_mem (fs : FileSys) (maxFile maxTotal : Nat)
    (l : List String) (total : Nat) (t : String × String × Nat)
    (ht : t ∈ collectFiles fs maxFile maxTotal l total) :
    ∃ fi, fs.info t.1 = some fi ∧ fi.content = some t.2.1 ∧
      t.2.2 = fi.size ∧ fi.size ≤ maxFile := by
  induction l generalizing total with
  | nil => simp [collectFiles] at ht
  | cons p rest ih =>
    rw [collectFiles] at ht
    match hinfo : fs.info p with
    | none =>
      simp only [hinfo] at ht
      exact ih total ht
    | some fi =>
      simp only [hinfo] at ht
      by_cases h1 : maxFile < fi.size
      · rw [if_pos h1] at ht
        exact ih total ht
      · rw [if_neg h1] at ht
        by_cases h2 : maxTotal < total + fi.size
        · rw [if_pos h2] at ht
          exact ih total ht
        · rw [if_neg h2] at ht
          match hc : fi.content with
          | none =>
            simp only [hc] at ht
            exact ih total ht
          | some c =>
            simp only [hc] at ht
            rcases List.mem_cons.mp ht with h | h
            · subst h
              exact ⟨fi, hinfo, hc, rfl, Nat.le_of_not_lt h1⟩
            · exact ih (total + fi.size) h

/-- Running total invariant: the sizes included on top of `total` never
push it past the total limit. -/
theorem collectFiles_total (fs : FileSys) (maxFile maxTotal : Nat)
    (l : List String) (total : Nat) (htot : total ≤ maxTotal) :
    total + ((collectFiles fs maxFile maxTotal l total).map
      (fun t => t.2.2)).sum ≤ maxTotal := by
  induction l generalizing total with
  | nil => simpa [collectFiles]
  | cons p rest ih =>
    rw [collectFiles]
    match hinfo : fs.info p with
    | none => exact ih total htot
    | some fi =>
      by_cases h1 : maxFile < fi.size
      · simp only [if_pos h1]
        exact ih total htot
      · simp only [if_neg h1]
        by_cases h2 : maxTotal < total + fi.size
        · simp only [if_pos h2]
          exact ih total htot
        · simp only [if_neg h2]
          match hc : fi.content with
          | none => exact ih total htot
          | some c =>
            have := ih (total + fi.size) (Nat.le_of_not_lt h2)
            simp only [List.map_cons, List.sum_cons]
            omega

/-- The resolved forms dedup keeps never lie in the seen set. -/
theorem dedupResolved_not_seen (fs : FileSys) (l seen : List String)
    (p : String) (hp : p ∈ dedupResolved fs l seen) :
    fs.resolve p ∉ seen := by
  induction l generalizing seen with
  | nil => simp [dedupResolved] at hp
  | cons q rest ih =>
    rw [dedupResolved] at hp
    by_cases hq : seen.contains (fs.resolve q)
    · rw [if_pos hq] at hp
      exact ih seen hp
    · rw [if_neg hq] at hp
      rcases List.mem_cons.mp hp with h | h
      · subst h
        intro hmem
        exact hq (List.elem_eq_true_of_mem hmem)
      · intro hmem
        exact (ih (fs.resolve q :: seen) h) (List.mem_cons_of_mem _ hmem)

/-- The dedup loop yields paths with pairwise distinct resolved forms. -/
theorem dedupResolved_nodup (fs : FileSys) (l seen : List String) :
    ((dedupResolved fs l seen).map fs.resolve).Nodup := by
  induction l generalizing seen with
  | nil => simp [dedupResolved]
  | cons q rest ih =>
    rw [dedupResolved]
    by_cases hq : seen.contains (fs.resolve q)
    · rw [if_pos hq]
      exact ih seen
    · rw [if_neg hq]
      rw [List.map_cons, List.nodup_cons]
      refine ⟨?_, ih (fs.resolve q :: seen)⟩
      intro hmem
      rcases List.mem_map.mp hmem with ⟨p, hp, hpe⟩
      exact (dedupResolved_not_seen fs rest (fs.resolve q :: seen) p hp)
        (by simp [hpe])

/-- Claim C10: every file `load_files` includes fits the per-file
limit, the included sizes sum to at most the total limit, paths with
equal resolved forms are included at most once, and an oversize or
unreadable file is skipped while the remaining files are still
processed. -/
theorem load_files_limits (fs : FileSys) (maxFile maxTotal : Nat)
    (paths : List String) :
    (∀ t ∈ includedFiles fs maxFile maxTotal paths,
      ∃ fi, fs.info t.1 = some fi ∧ fi.content = some t.2.1 ∧
        t.2.2 = fi.size ∧ fi.size ≤ maxFile) ∧
    ((includedFiles fs maxFile maxTotal paths).map (fun t => t.2.2)).sum
      ≤ maxTotal ∧
    ((includedFiles fs maxFile maxTotal paths).map
      (fun t => fs.resolve t.1)).Nodup ∧
    (∀ p rest total, skipsFile fs maxFile p →
      collectFiles fs maxFile maxTotal (p :: rest) total
        = collectFiles fs maxFile maxTotal rest total) := by
  refine ⟨?_, ?_, ?_, ?_⟩
  · intro t ht
    exact collectFiles_mem fs maxFile maxTotal _ 0 t ht
  · have := collectFiles_total fs maxFile maxTotal
      (dedupResolved fs paths []) 0 (Nat.zero_le maxTotal)
    simpa [includedFiles] using this
  · have hsub :
        ((includedFiles fs maxFile maxTotal paths).map
          (fun t => fs.resolve t.1)).Sublist
          ((dedupResolved fs paths []).map fs.resolve) := by
      have h1 := collectFiles_sublist fs maxFile maxTotal
        (dedupResolved fs paths []) 0
      have h2 := h1.map fs.resolve
      simpa [includedFiles, List.map_map, Function.comp] using h2
    exact (dedupResolved_nodup fs paths []).sublist hsub
  · intro p rest total hsk
    rcases hsk with hnone | ⟨fi, hinfo, hcase⟩
    · rw [collectFiles]
      simp only [hnone]
    · rw [collectFiles]
      simp only [hinfo]
      rcases hcase with hov | hcont
      · rw [if_pos hov]
      · by_cases h1 : maxFile < fi.size
        · rw [if_pos h1]
        · rw [if_neg h1]
          by_cases h2 : maxTotal < total + fi.size
          · rw [if_pos h2]
          · rw [if_neg h2]
            simp only [hcont]

/-- Witness for C10: with a 100-byte per-file limit, the oversize file
"big" is skipped and processing continues with "ok". -/
theorem load_files_limits_witness :
    collectFiles fsEx 100 500 ["big", "ok"] 0
      = collectFiles fsEx 100 500 ["ok"] 0 :=
  (load_files_limits fsEx 100 500 ["big", "ok"]).2.2.2 "big" ["ok"] 0
    (Or.inr ⟨FileInfo.mk 1000 (some "B"), by decide, Or.inl (by decide)⟩)

/-! Helper facts about Stage 1. -/

/-- The Stage-1 outcome list tracks the council list model for model. -/
theorem stage1_models (council : List String) (f : String → Option String) :
    (council.map (fun m => StageOneOutcome.mk m (f m))).map
      (fun o => o.model) = council := by
  induction council with
  | nil => rfl
  | cons a l ih => simp [ih]

/-- The successful Stage-1 models are a subsequence of the council. -/
theorem successfulModels_sublist (council : List String)
    (f : String → Option String) :
    (successfulModels (council.map
      (fun m => StageOneOutcome.mk m (f m)))).Sublist council := by
  unfold successfulModels
  have h1 := (List.filter_sublist
    (l := council.map (fun m => StageOneOutcome.mk m (f m)))
    (p := fun o => o.response.isSome)).map (fun o => o.model)
  rw [stage1_models] at h1
  exact h1

/-- A council model whose call succeeded is among the successful
models. -/
theorem mem_successfulModels (council : List String)
    (f : String → Option String) (m : String) (hm : m ∈ council)
    (hs : (f m).isSome) :
    m ∈ successfulModels (council.map (fun m => StageOneOutcome.mk m (f m))) := by
  unfold successfulModels
  refine List.mem_map.mpr ⟨StageOneOutcome.mk m (f m), ?_, rfl⟩
  refine List.mem_filter.mpr ⟨List.mem_map_of_mem _ hm, hs⟩

/-- When every council call fails there are no successful models. -/
theorem successfulModels_all_fail (council : List String)
    (f : String → Option String) (hall : ∀ m ∈ council, f m = none) :
    successfulModels (council.map (fun m => StageOneOutcome.mk m (f m))) = [] := by
  unfold successfulModels
  rw [List.map_eq_nil_iff]
  rw [List.filter_eq_nil_iff]
  intro o ho
  rcases List.mem_map.mp ho with ⟨m, hm, rfl⟩
  simp [hall m hm]

/-- Claim C3: a run in which every Stage-1 call fails terminates with
the fatal condition `NoResponses` before Stage 2: no Stage-2 or
Stage-3 call is dispatched, and neither Stage-2 data nor a chairman
outcome exists. -/
theorem runDeliberation_no_responses (env : Env) (council : List String)
    (chairman : String) (hne : council ≠ [])
    (hall : ∀ m ∈ council, env.stage1Response m = none) :
    (runDeliberation env council chairman).fatal = some FatalError.noResponses ∧
    (runDeliberation env council chairman).stage2Calls = [] ∧
    (runDeliberation env council chairman).stage3Calls = 0 ∧
    (runDeliberation env council chairman).stage2 = none ∧
    (runDeliberation env council chairman).chairman = none := by
  have hsucc := successfulModels_all_fail council env.stage1Response hall
  unfold runDeliberation
  simp [hsucc]

/-- Witness for C3: a two-model council in which both calls fail. -/
theorem runDeliberation_no_responses_witness :
    (runDeliberation envAllFail ["a", "b"] "c").fatal
        = some FatalError.noResponses ∧
    (runDeliberation envAllFail ["a", "b"] "c").stage2Calls = [] ∧
    (runDeliberation envAllFail ["a", "b"] "c").stage3Calls = 0 ∧
    (runDeliberation envAllFail ["a", "b"] "c").stage2 = none ∧
    (runDeliberation envAllFail ["a", "b"] "c").chairman = none :=
  runDeliberation_no_responses envAllFail ["a", "b"] "c" (by decide)
    (fun m _ => rfl)

/-- Claim C6: when at least one Stage-1 call succeeds and the single
chairman call fails, the run terminates with `SynthesisFailed` and no
chairman outcome, while the Stage-1 outcomes and the Stage-2 data stay
in the result bundle. -/
theorem runDeliberation_synthesis_failed (env : Env) (council : List String)
    (chairman : String)
    (hsome : ∃ m ∈ council, (env.stage1Response m).isSome)
    (hch : env.chairmanResponse = none) :
    (runDeliberation env council chairman).fatal
      = some FatalError.synthesisFailed ∧
    (runDeliberation env council chairman).chairman = none ∧
    (runDeliberation env council chairman).stage1
      = council.map (fun m => StageOneOutcome.mk m (env.stage1Response m)) ∧
    (runDeliberation env council chairman).stage2.isSome = true ∧
    (runDeliberation env council chairman).stage3Calls = 1 := by
  rcases hsome with ⟨m, hm, hs⟩
  have hmem := mem_successfulModels council env.stage1Response m hm hs
  have hne : successfulModels (council.map
      (fun m => StageOneOutcome.mk m (env.stage1Response m))) ≠ [] := by
    intro h
    rw [h] at hmem
    exact List.not_mem_nil m hmem
  have hemp : (successfulModels (council.map
      (fun m => StageOneOutcome.mk m (env.stage1Response m)))).isEmpty = false := by
    rw [List.isEmpty_eq_false]
    exact hne
  unfold runDeliberation
  simp [hemp, hch]

/-- Witness for C6: one successful responder and a failing chairman. -/
theorem runDeliberation_synthesis_failed_witness :
    (runDeliberation envNoChairman ["a", "b"] "c").fatal
        = some FatalError.synthesisFailed ∧
    (runDeliberation envNoChairman ["a", "b"] "c").chairman = none ∧
    (runDeliberation envNoChairman ["a", "b"] "c").stage1
      = ["a", "b"].map (fun m =>
          StageOneOutcome.mk m (envNoChairman.stage1Response m)) ∧
    (runDeliberation envNoChairman ["a", "b"] "c").stage2.isSome = true ∧
    (runDeliberation envNoChairman ["a", "b"] "c").stage3Calls = 1 :=
  runDeliberation_synthesis_failed envNoChairman ["a", "b"] "c"
    ⟨"a", by decide, by decide⟩ rfl

/-- The anonymizer labels exactly the permuted models, in permuted
order. -/
theorem anonymize_map_snd (l : List String) :
    (anonymize l).map Prod.snd = l := by
  simp only [anonymize, List.map_map]
  have hf : (Prod.snd ∘ fun im : Nat × String => (im.1 + 1, im.2))
      = Prod.snd := by
    funext im
    rfl
  rw [hf, List.enum_map_snd]

/-- The labels the anonymizer hands out are 1..N. -/
theorem anonymize_map_fst (l : List String) :
    (anonymize l).map Prod.fst = (List.range l.length).map (fun i => i + 1) := by
  simp only [anonymize, List.map_map]
  rw [← List.enum_map_fst l, List.map_map]
  rfl

/-- The labels the anonymizer hands out are pairwise distinct. -/
theorem anonymize_fst_nodup (l : List String) :
    ((anonymize l).map Prod.fst).Nodup := by
  rw [anonymize_map_fst]
  exact (List.nodup_range l.length).map
    (fun a b h => Nat.add_right_cancel h)

/-- Claim C5: the LabelAssignment is a bijection between the labels and
exactly the successful Stage-1 models: labels are pairwise distinct,
each model carries one label, and the labelled models are a permutation
of (hence the same set as) the successful models, so no failed model is
ever labelled. -/
theorem runDeliberation_label_bijection (env : Env) (council : List String)
    (chairman : String) (hnd : council.Nodup)
    (hsh : ∀ l : List String, (env.shuffle l).Perm l) :
    ((runDeliberation env council chairman).labels.map Prod.fst).Nodup ∧
    ((runDeliberation env council chairman).labels.map Prod.snd).Nodup ∧
    ((runDeliberation env council chairman).labels.map Prod.snd).Perm
      (successfulModels (runDeliberation env council chairman).stage1) := by
  have hsubl := successfulModels_sublist council env.stage1Response
  have hsnodup : (successfulModels (council.map
      (fun m => StageOneOutcome.mk m (env.stage1Response m)))).Nodup :=
    hsubl.nodup hnd
  cases hemp : (successfulModels (council.map
      (fun m => StageOneOutcome.mk m (env.stage1Response m)))).isEmpty with
  | true =>
    have hnil := List.isEmpty_iff.mp hemp
    unfold runDeliberation
    simp [hemp, hnil]
  | false =>
    have hperm : ((anonymize (env.shuffle (successfulModels (council.map
        (fun m => StageOneOutcome.mk m (env.stage1Response m)))))).map
          Prod.snd).Perm
        (successfulModels (council.map
          (fun m => StageOneOutcome.mk m (env.stage1Response m)))) := by
      rw [anonymize_map_snd]
      exact hsh _
    cases hc : env.chairmanResponse with
    | none =>
      unfold runDeliberation
      simp only [hemp, Bool.false_eq_true, if_false, hc]
      exact ⟨anonymize_fst_nodup _, hperm.symm.nodup hsnodup, hperm⟩
    | some resp =>
      unfold runDeliberation
      simp only [hemp, Bool.false_eq_true, if_false, hc]
      exact ⟨anonymize_fst_nodup _, hperm.symm.nodup hsnodup, hperm⟩

/-- Witness for C5: a council of two models, one failing, with the
reversing permutation. -/
theorem runDeliberation_label_bijection_witness :
    ((runDeliberation envNoChairman ["a", "b"] "c").labels.map
      Prod.fst).Nodup ∧
    ((runDeliberation envNoChairman ["a", "b"] "c").labels.map
      Prod.snd).Nodup ∧
    ((runDeliberation envNoChairman ["a", "b"] "c").labels.map
      Prod.snd).Perm
      (successfulModels (runDeliberation envNoChairman ["a", "b"] "c").stage1) :=
  runDeliberation_label_bijection envNoChairman ["a", "b"] "c" (by decide)
    (fun l => l.reverse_perm)

/-! Lemmas about the stable insertion sort of aggregate entries. -/

/-- An earlier entry never has the larger average. -/
theorem entryBefore_le (a b : AggregateEntry) (h : entryBefore a b) :
    a.average_rank ≤ b.average_rank := by
  rcases h with h | ⟨h, _⟩
  · exact le_of_lt h
  · exact le_of_eq h

/-- Insertion produces a permutation of pushing on top. -/
theorem insertEntry_perm (e : AggregateEntry) (l : List AggregateEntry) :
    (insertEntry e l).Perm (e :: l) := by
  induction l with
  | nil => exact List.Perm.refl _
  | cons x xs ih =>
    rw [insertEntry]
    by_cases h : e.average_rank < x.average_rank
    · rw [if_pos h]
    · rw [if_neg h]
      exact (ih.cons x).trans (List.Perm.swap e x xs)

/-- The sort is a permutation of its input. -/
theorem sortEntries_perm (l : List AggregateEntry) :
    (sortEntries l).Perm l := by
  suffices hgen : ∀ (l acc : List AggregateEntry),
      (l.foldl (fun acc e => insertEntry e acc) acc).Perm (acc ++ l) by
    simpa using hgen l []
  intro l
  induction l with
  | nil => intro acc; simp
  | cons e l ih =>
    intro acc
    have h1 := ih (insertEntry e acc)
    have h2a : ((insertEntry e acc) ++ l).Perm ((e :: acc) ++ l) :=
      (insertEntry_perm e acc).append_right l
    have h2b : ((e :: acc) ++ l).Perm (acc ++ e :: l) := by
      rw [List.cons_append]
      exact List.perm_middle.symm
    exact h1.trans (h2a.trans h2b)

/-- Inserting an entry whose council position is later than everything
already sorted keeps the list ordered by `entryBefore`. -/
theorem insertEntry_pairwise (e : AggregateEntry)
    (acc : List AggregateEntry) (hacc : acc.Pairwise entryBefore)
    (hpos : ∀ x ∈ acc, x.pos < e.pos) :
    (insertEntry e acc).Pairwise entryBefore := by
  induction acc with
  | nil => simp [insertEntry]
  | cons x xs ih =>
    rw [insertEntry]
    by_cases h : e.average_rank < x.average_rank
    · rw [if_pos h]
      refine List.Pairwise.cons ?_ hacc
      intro y hy
      rcases List.mem_cons.mp hy with rfl | hy'
      · exact Or.inl h
      · have hxy := List.rel_of_pairwise_cons hacc hy'
        exact Or.inl (lt_of_lt_of_le h (entryBefore_le x y hxy))
    · rw [if_neg h]
      refine List.Pairwise.cons ?_ ?_
      · intro y hy
        have hy2 := (insertEntry_perm e xs).mem_iff.mp hy
        rcases List.mem_cons.mp hy2 with rfl | hy'
        · rcases lt_or_eq_of_le (not_lt.mp h) with hlt | heq
          · exact Or.inl hlt
          · exact Or.inr ⟨heq, hpos x (List.mem_cons_self x xs)⟩
        · exact List.rel_of_pairwise_cons hacc hy'
      · exact ih (List.Pairwise.of_cons hacc)
          (fun y hy => hpos y (List.mem_cons_of_mem x hy))

/-- Sorting a list whose council positions strictly increase yields a
list ordered by `entryBefore`. -/
theorem sortEntries_pairwise (l : List AggregateEntry)
    (hl : l.Pairwise (fun a b => a.pos < b.pos)) :
    (sortEntries l).Pairwise entryBefore := by
  suffices hgen : ∀ (l acc : List AggregateEntry),
      l.Pairwise (fun a b => a.pos < b.pos) →
      acc.Pairwise entryBefore →
      (∀ x ∈ acc, ∀ e ∈ l, x.pos < e.pos) →
      (l.foldl (fun acc e => insertEntry e acc) acc).Pairwise entryBefore by
    refine hgen l [] hl List.Pairwise.nil ?_
    intro x hx
    simp at hx
  intro l
  induction l with
  | nil =>
    intro acc _ hacc _
    simpa using hacc
  | cons e l ih =>
    intro acc hl2 hacc hcross
    have hacc' : (insertEntry e acc).Pairwise entryBefore :=
      insertEntry_pairwise e acc hacc
        (fun x hx => hcross x hx e (List.mem_cons_self e l))
    have hcross' : ∀ x ∈ insertEntry e acc, ∀ q ∈ l, x.pos < q.pos := by
      intro x hx q hq
      rcases List.mem_cons.mp ((insertEntry_perm e acc).mem_iff.mp hx) with
        rfl | hx'
      · exact List.rel_of_pairwise_cons hl2 hq
      · exact hcross x hx' q (List.mem_cons_of_mem e hq)
    exact ih (insertEntry e acc) (List.Pairwise.of_cons hl2) hacc' hcross'

/-- Enumeration indices strictly increase. -/
theorem enumFrom_pairwise_fst {α : Type _} (l : List α) (n : Nat) :
    (List.enumFrom n l).Pairwise (fun a b => a.1 < b.1) := by
  induction l generalizing n with
  | nil => simp
  | cons a l ih =>
    rw [List.enumFrom_cons]
    refine List.Pairwise.cons ?_ (ih (n + 1))
    intro b hb
    rcases b with ⟨i, x⟩
    have hmem := List.mem_enumFrom hb
    exact lt_of_lt_of_le (Nat.lt_succ_self n) hmem.1

/-- The aggregate entries carry strictly increasing council
positions. -/
theorem aggregateEntries_pos (cands : List (String × Label))
    (subs : List (List Label)) :
    (aggregateEntries cands subs).Pairwise (fun a b => a.pos < b.pos) := by
  unfold aggregateEntries
  rw [List.pairwise_filterMap]
  refine (enumFrom_pairwise_fst cands 0).imp ?_
  intro a b hab x hx y hy
  by_cases ha : (rankPositions a.2.2 subs).isEmpty
  · simp [ha] at hx
  · by_cases hb : (rankPositions b.2.2 subs).isEmpty
    · simp [hb] at hy
    · simp only [ha, hb, Bool.false_eq_true, if_false, Option.mem_def,
        Option.some.injEq] at hx hy
      rw [← hx, ← hy]
      exact hab

/-- Membership in a list of pairs with distinct keys determines the
value. -/
theorem nodup_fst_unique {l : List (String × Label)}
    (hnd : (l.map Prod.fst).Nodup) {m : String} {a b : Label}
    (ha : (m, a) ∈ l) (hb : (m, b) ∈ l) : a = b := by
  induction l with
  | nil => exact absurd ha (List.not_mem_nil _)
  | cons kv l ih =>
    rw [List.map_cons, List.nodup_cons] at hnd
    rcases List.mem_cons.mp ha with ha1 | ha2
    · rcases List.mem_cons.mp hb with hb1 | hb2
      · exact (Prod.ext_iff.mp (ha1.trans hb1.symm)).2
      · exfalso
        apply hnd.1
        rw [← ha1]
        exact List.mem_map.mpr ⟨(m, b), hb2, rfl⟩
    · rcases List.mem_cons.mp hb with hb1 | hb2
      · exfalso
        apply hnd.1
        rw [← hb1]
        exact List.mem_map.mpr ⟨(m, a), ha2, rfl⟩
      · exact ih hnd.2 ha2 hb2

/-- Every aggregate entry arises from a candidate named in at least one
valid submission and carries the mean of its rank positions. -/
theorem mem_aggregateRankings (cands : List (String × Label))
    (subs : List (List Label)) (e : AggregateEntry)
    (he : e ∈ aggregateRankings cands subs) :
    ∃ lbl, (e.model, lbl) ∈ cands ∧
      (rankPositions lbl subs).isEmpty = false ∧
      e.average_rank = averageRank (rankPositions lbl subs) := by
  have he2 : e ∈ aggregateEntries cands subs :=
    (sortEntries_perm (aggregateEntries cands subs)).mem_iff.mp he
  rcases List.mem_filterMap.mp he2 with ⟨ic, hic, hfc⟩
  by_cases hemp : (rankPositions ic.2.2 subs).isEmpty
  · simp [hemp] at hfc
  · simp only [hemp, Bool.false_eq_true, if_false, Option.some.injEq] at hfc
    have hc : ic.2 ∈ cands := by
      have h1 := List.mem_map_of_mem Prod.snd hic
      rwa [List.enum_map_snd] at h1
    refine ⟨ic.2.2, ?_, ?_, ?_⟩
    · rw [← hfc]
      simpa using hc
    · exact Bool.eq_false_iff.mpr hemp
    · rw [← hfc]

/-- Claim C4: over any valid ranking submissions, each AggregateRanking
entry carries the arithmetic mean of its model's 1-indexed rank
positions across the submissions naming it; the list is sorted
non-decreasing by average rank with ties broken by council order; and
a model named in zero valid submissions never appears. -/
theorem aggregateRankings_spec (cands : List (String × Label))
    (subs : List (List Label)) (hnd : (cands.map Prod.fst).Nodup) :
    (∀ e ∈ aggregateRankings cands subs,
      ∃ lbl, (e.model, lbl) ∈ cands ∧
        (rankPositions lbl subs).isEmpty = false ∧
        e.average_rank = averageRank (rankPositions lbl subs)) ∧
    (aggregateRankings cands subs).Pairwise
      (fun a b => a.average_rank ≤ b.average_rank) ∧
    (aggregateRankings cands subs).Pairwise entryBefore ∧
    (∀ m lbl, (m, lbl) ∈ cands → rankPositions lbl subs = [] →
      m ∉ (aggregateRankings cands subs).map (fun e => e.model)) := by
  have hpair : (aggregateRankings cands subs).Pairwise entryBefore :=
    sortEntries_pairwise _ (aggregateEntries_pos cands subs)
  refine ⟨mem_aggregateRankings cands subs, ?_, hpair, ?_⟩
  · exact hpair.imp (fun h => entryBefore_le _ _ h)
  · intro m lbl hmem hzero hcontra
    rcases List.mem_map.mp hcontra with ⟨e, he, hem⟩
    rcases mem_aggregateRankings cands subs e he with ⟨lbl2, hmem2, hne2, _⟩
    rw [hem] at hmem2
    have : lbl = lbl2 := nodup_fst_unique hnd hmem hmem2
    rw [← this, hzero] at hne2
    simp [List.isEmpty_nil] at hne2

/-- Witness for C4 at the spec's concrete scenario: three labelled
models, one valid submission ranking labels 1, 2, 3. -/
theorem aggregateRankings_spec_witness :
    (∀ e ∈ aggregateRankings [("A", 2), ("B", 1), ("C", 3)] [[1, 2, 3]],
      ∃ lbl, (e.model, lbl) ∈ [("A", 2), ("B", 1), ("C", 3)] ∧
        (rankPositions lbl [[1, 2, 3]]).isEmpty = false ∧
        e.average_rank = averageRank (rankPositions lbl [[1, 2, 3]])) ∧
    (aggregateRankings [("A", 2), ("B", 1), ("C", 3)] [[1, 2, 3]]).Pairwise
      (fun a b => a.average_rank ≤ b.average_rank) ∧
    (aggregateRankings [("A", 2), ("B", 1), ("C", 3)] [[1, 2, 3]]).Pairwise
      entryBefore ∧
    (∀ m lbl, (m, lbl) ∈ [("A", 2), ("B", 1), ("C", 3)] →
      rankPositions lbl [[1, 2, 3]] = [] →
      m ∉ (aggregateRankings [("A", 2), ("B", 1), ("C", 3)]
        [[1, 2, 3]]).map (fun e => e.model)) :=
  aggregateRankings_spec [("A", 2), ("B", 1), ("C", 3)] [[1, 2, 3]] (by decide)

/-- Claim C7: the reasoning-effort mapping is deterministic and
side-effect free: two evaluations on equal model strings agree, and the
`reasoning` field of the payload depends only on the model string, not
on the messages or the token limit.  (Purity itself is witnessed by the
embedding: both operations are total functions of their arguments.) -/
theorem reasoning_effort_deterministic (m₁ m₂ : String) (h : m₁ = m₂) :
    model_requires_xhigh_reasoning m₁ = model_requires_xhigh_reasoning m₂ ∧
    ∀ (msgs₁ msgs₂ : List ChatMessage) (t₁ t₂ : Nat),
      (build_request_payload m₁ msgs₁ t₁).reasoning
        = (build_request_payload m₂ msgs₂ t₂).reasoning := by
  subst h
  refine ⟨rfl, ?_⟩
  intro msgs₁ msgs₂ t₁ t₂
  unfold build_request_payload
  by_cases hx : model_requires_xhigh_reasoning m₁ <;> simp [hx]

/-- Witness for C7 at a concrete model with distinct messages and token
limits. -/
theorem reasoning_effort_deterministic_witness :
    (build_request_payload "openai/gpt-5.3-codex" [] 1).reasoning
      = (build_request_payload "openai/gpt-5.3-codex"
          [{ role := "user", content := "test" }] 2).reasoning :=
  (reasoning_effort_deterministic "openai/gpt-5.3-codex"
    "openai/gpt-5.3-codex" rfl).2 [] [{ role := "user", content := "test" }] 1 2

/-- Claim C8: the payload carries `reasoning = {effort := "xhigh"}`
exactly when the lowercased model starts with "openai/" and contains
"codex", or starts with "anthropic/claude-opus-"; otherwise the
`reasoning` key is absent. -/
theorem build_request_payload_reasoning (m : String)
    (msgs : List ChatMessage) (t : Nat) :
    (build_request_payload m msgs t).reasoning
      = if spec_requires_xhigh m then some { effort := "xhigh" } else none := by
  have hcond : model_requires_xhigh_reasoning m = spec_requires_xhigh m := rfl
  unfold build_request_payload
  rw [hcond]
  by_cases hx : spec_requires_xhigh m <;> simp [hx]

/-- Claim C2: `query_model` never propagates a failure past its
boundary: a raised exception, an HTTP error status, or a malformed
payload each yield the failure marker `none`, and a successful call
yields the payload with the content string and the optional reasoning
trace. -/
theorem query_model_total (b : PostBehaviour) :
    (∀ e, b = PostBehaviour.raises e → query_model b = none) ∧
    (∀ resp, b = PostBehaviour.ok resp → 400 ≤ resp.status →
      query_model b = none) ∧
    (∀ resp, b = PostBehaviour.ok resp → resp.message = none →
      query_model b = none) ∧
    (∀ resp m, b = PostBehaviour.ok resp → resp.status < 400 →
      resp.message = some m →
      query_model b = some { content := py_or_empty m.content,
                             reasoning_details := m.reasoning_details }) := by
  refine ⟨?_, ?_, ?_, ?_⟩
  · intro e he
    subst he
    rfl
  · intro resp hb hst
    subst hb
    simp [query_model, do_request, raise_for_status, if_pos hst]
  · intro resp hb hmsg
    subst hb
    by_cases hst : 400 ≤ resp.status
    · simp [query_model, do_request, raise_for_status, if_pos hst]
    · simp [query_model, do_request, raise_for_status, if_neg hst,
        extract_message, hmsg]
  · intro resp m hb hst hmsg
    subst hb
    have hst' : ¬ 400 ≤ resp.status := Nat.not_le.mpr hst
    simp [query_model, do_request, raise_for_status, if_neg hst',
      extract_message, hmsg]

/-- Witness for C2: a timeout and a 500 status both map to `none`, and
a well-formed 200 response maps to the success payload. -/
theorem query_model_total_witness :
    query_model (PostBehaviour.raises PyError.timedOut) = none ∧
    query_model (PostBehaviour.ok
      (HttpResponse.mk 500 (some (BackendMessage.mk (some "x") none)))) = none ∧
    query_model (PostBehaviour.ok
      (HttpResponse.mk 200 (some (BackendMessage.mk (some "hi") (some "r")))))
        = some (QueryResult.mk "hi" (some "r")) := by
  refine ⟨?_, ?_, ?_⟩
  · exact (query_model_total (PostBehaviour.raises PyError.timedOut)).1
      PyError.timedOut rfl
  · exact (query_model_total _).2.1 _ rfl (by decide)
  · exact (query_model_total _).2.2.2 _ (BackendMessage.mk (some "hi") (some "r"))
      rfl (by decide) rfl

/-- Claim C9: whenever `query_model` succeeds, the `content` field of
the returned dict is a string computed as Python `content or ""`: a
null or missing backend content yields `""`, while `reasoning_details`
is passed through and may be `none`. -/
theorem query_model_content_string (b : PostBehaviour) (r : QueryResult) :
    query_model b = some r →
    ∃ resp m, b = PostBehaviour.ok resp ∧ resp.message = some m ∧
      r.content = py_or_empty m.content ∧
      (m.content = none → r.content = "") ∧
      r.reasoning_details = m.reasoning_details := by
  intro hq
  match b with
  | PostBehaviour.raises e => simp [query_model, do_request] at hq
  | PostBehaviour.ok resp =>
    refine ⟨resp, ?_⟩
    by_cases hst : 400 ≤ resp.status
    · simp [query_model, do_request, raise_for_status, if_pos hst] at hq
    · match hmsg : resp.message with
      | none =>
        simp [query_model, do_request, raise_for_status, if_neg hst,
          extract_message, hmsg] at hq
      | some m =>
        refine ⟨m, rfl, rfl, ?_⟩
        simp [query_model, do_request, raise_for_status, if_neg hst,
          extract_message, hmsg] at hq
        subst hq
        exact ⟨rfl, fun hc => by simp [py_or_empty, hc], rfl⟩

/-- Witness for C9 at a concrete successful call whose backend content
is null. -/
theorem query_model_content_string_witness :
    ∃ resp m,
      PostBehaviour.ok (HttpResponse.mk 200 (some (BackendMessage.mk none none)))
        = PostBehaviour.ok resp ∧
      resp.message = some m ∧
      (QueryResult.mk "" none).content = py_or_empty m.content ∧
      (m.content = none → (QueryResult.mk "" none).content = "") ∧
      (QueryResult.mk "" none).reasoning_details = m.reasoning_details :=
  query_model_content_string
    (PostBehaviour.ok (HttpResponse.mk 200 (some (BackendMessage.mk none none))))
    (QueryResult.mk "" none) rfl

end SmallCouncil
